import Mathlib

/-!
Verification of the transaction webhook service
(`app/models.py`, `app/main.py`, `app/processor.py`).

The embedding models the durable store as a list of rows (the primary-key
uniqueness is provided operationally by the atomic insert-if-absent that
`session.commit` with a primary-key column performs), the processing queue
as a list of transaction ids, and wall-clock time (`datetime.utcnow`) as a
natural-number clock carried in the system state.
-/

namespace TxnWebhook

/-- `TransactionStatus` enum from `app/models.py`: `PROCESSING`, `PROCESSED`. -/
inductive TransactionStatus where
  | PROCESSING
  | PROCESSED
deriving DecidableEq, Repr

/-- The `.value` string of the enum member, as serialised by `get_transaction`. -/
def TransactionStatus.value : TransactionStatus → String
  | .PROCESSING => "PROCESSING"
  | .PROCESSED => "PROCESSED"

/-- A row of the `transactions` table (`app/models.py`). `amount` is a
`Float` column in the source but is completely opaque to the core (stored
and echoed back, never inspected or computed with), so its carrier is
modelled as `Int`. Timestamps are modelled as a `Nat` clock. -/
structure Transaction where
  transaction_id : String
  source_account : String
  destination_account : String
  amount : Int
  currency : String
  status : TransactionStatus
  created_at : Nat
  processed_at : Option Nat
deriving DecidableEq, Repr

/-- The JSON body of a webhook POST, before any field access: each required
field may be present or absent (accessing an absent field raises `KeyError`
in the source, which has no validation layer). -/
structure RawPayload where
  transaction_id : Option String
  source_account : Option String
  destination_account : Option String
  amount : Option Int
  currency : Option String
deriving DecidableEq, Repr

/-- A python exception escaping the handler uncaught.  FastAPI turns it
into an HTTP 500 internal-server-error response. -/
inductive PyErr where
  | keyError (field : String)
deriving DecidableEq, Repr

/-- A `JSONResponse(status_code=..., content={"message": ...})` as returned
by the `webhook` handler in `app/main.py`. -/
structure WebhookResponse where
  statusCode : Nat
  message : String
deriving DecidableEq, Repr

/-- The store: rows of the `transactions` table. -/
abbrev Store := List Transaction

/-- Point lookup by primary key (`session.get(Transaction, txn_id)`). -/
def getTxn (st : Store) (id : String) : Option Transaction :=
  st.find? (fun r => r.transaction_id == id)

/-- Number of rows holding a given `transaction_id`. -/
def rowCount (st : Store) (id : String) : Nat :=
  st.countP (fun r => r.transaction_id == id)

/-- The worker's update (`app/processor.py` lines 17-18): set `status` to
`PROCESSED` and `processed_at`, touching no other column. -/
def markProcessed (st : Store) (id : String) (t : Nat) : Store :=
  st.map (fun r =>
    if r.transaction_id == id then
      { r with status := .PROCESSED, processed_at := some t }
    else r)

/-- Whole system state: store rows, the `asyncio.Queue` contents (front of
the list is dequeued first), and the current wall clock. -/
structure SysState where
  store : List Transaction
  queue : List String
  now : Nat
deriving DecidableEq, Repr

deriving instance DecidableEq for Except

/-- Result of one run of the `webhook` handler: the response or an escaping
exception, the state after the call, and how many store reads the call
performed (instrumentation used to express "before any store interaction"). -/
structure RunResult where
  result : Except PyErr WebhookResponse
  state : SysState
  storeReads : Nat
deriving DecidableEq, Repr

/-- Row built at `app/main.py` lines 31-39: status `PROCESSING`,
`created_at` the current time, `processed_at` unset. -/
def mkTxn (tid src dst : String) (amt : Int) (cur : String) (now : Nat) : Transaction :=
  { transaction_id := tid
    source_account := src
    destination_account := dst
    amount := amt
    currency := cur
    status := .PROCESSING
    created_at := now
    processed_at := none }

/-- The `webhook` handler (`app/main.py` lines 24-47), with python's
evaluation order: `data["transaction_id"]` is read first (line 28), then
the store lookup runs; only on the not-found path are the remaining fields
read (lines 33-36, in source order), the row committed (atomic
insert-if-absent; a primary-key conflict raises `IntegrityError`, caught
and answered as a duplicate), and the id enqueued. -/
def webhook (data : RawPayload) (s : SysState) : RunResult :=
  match data.transaction_id with
  | none => ⟨.error (.keyError "transaction_id"), s, 0⟩
  | some tid =>
    match getTxn s.store tid with
    | some _ => ⟨.ok ⟨202, "Already processing"⟩, s, 1⟩
    | none =>
      match data.source_account with
      | none => ⟨.error (.keyError "source_account"), s, 1⟩
      | some src =>
        match data.destination_account with
        | none => ⟨.error (.keyError "destination_account"), s, 1⟩
        | some dst =>
          match data.amount with
          | none => ⟨.error (.keyError "amount"), s, 1⟩
          | some amt =>
            match data.currency with
            | none => ⟨.error (.keyError "currency"), s, 1⟩
            | some cur =>
              match getTxn s.store tid with
              | some _ =>
                ⟨.ok ⟨202, "Idempotent: already exists"⟩, s, 2⟩
              | none =>
                ⟨.ok ⟨202, "Queued for processing"⟩,
                 { s with
                    store := s.store ++ [mkTxn tid src dst amt cur s.now]
                    queue := s.queue ++ [tid] }, 2⟩

/-- The serialised record returned by `get_transaction` on the found path
(`app/main.py` lines 55-64). -/
structure TxnView where
  transaction_id : String
  source_account : String
  destination_account : String
  amount : Int
  currency : String
  status : String
  created_at : Nat
  processed_at : Option Nat
deriving DecidableEq, Repr

/-- Response of the query endpoint: 404 with an error body, or the record. -/
inductive QueryResponse where
  | notFound (statusCode : Nat) (error : String)
  | found (body : TxnView)
deriving DecidableEq, Repr

/-- The `get_transaction` handler (`app/main.py` lines 49-64): a pure read;
the state component of the pair is what the store is after the call. -/
def get_transaction (id : String) (s : SysState) : QueryResponse × SysState :=
  match getTxn s.store id with
  | none => (.notFound 404 "Transaction not found", s)
  | some txn =>
    (.found
      { transaction_id := txn.transaction_id
        source_account := txn.source_account
        destination_account := txn.destination_account
        amount := txn.amount
        currency := txn.currency
        status := txn.status.value
        created_at := txn.created_at
        processed_at := txn.processed_at }, s)

/-- `enqueue_transaction` (`app/processor.py` lines 22-23). -/
def enqueue_transaction (id : String) (q : List String) : List String :=
  q ++ [id]

/-- One iteration of the `process_transactions` loop
(`app/processor.py` lines 11-20): dequeue an id, look it up; if present
and `PROCESSING`, sleep 30 seconds (the clock advances) then mark it
processed at the new time; otherwise do nothing further. -/
def workerStep (s : SysState) : SysState :=
  match s.queue with
  | [] => s
  | id :: rest =>
    match getTxn s.store id with
    | some txn =>
      if txn.status = .PROCESSING then
        { store := markProcessed s.store id (s.now + 30)
          queue := rest
          now := s.now + 30 }
      else { s with queue := rest }
    | none => { s with queue := rest }

/-- The operations that can touch the shared state, interleaved
arbitrarily: a webhook POST with any body, one worker iteration (only when
the queue is non-empty, since `queue.get()` blocks on an empty queue), a
query (which leaves the state as it found it), and the wall clock
advancing. -/
inductive Step : SysState → SysState → Prop where
  | submit (data : RawPayload) (s : SysState) : Step s (webhook data s).state
  | worker (s : SysState) (h : s.queue ≠ []) : Step s (workerStep s)
  | query (id : String) (s : SysState) : Step s (get_transaction id s).2
  | tick (δ : Nat) (s : SysState) : Step s { s with now := s.now + δ }

/-- The empty initial state: no rows, empty queue. -/
def initState : SysState := ⟨[], [], 0⟩

/-- States reachable from the empty initial state under the operations. -/
inductive Reachable : SysState → Prop where
  | init : Reachable initState
  | step {s s' : SysState} : Reachable s → Step s s' → Reachable s'

/-- Occurrences of an id in the processing queue. -/
def queueCount (q : List String) (id : String) : Nat :=
  q.countP (· == id)

/-- `n` sequential webhook POSTs of the same body. -/
def submitN : Nat → RawPayload → SysState → SysState
  | 0, _, s => s
  | n + 1, p, s => submitN n p (webhook p s).state

theorem getTxn_append_of_some {st : Store} {id : String} {r : Transaction}
    (rs : List Transaction) (h : getTxn st id = some r) :
    getTxn (st ++ rs) id = some r := by
  induction st with
  | nil => simp [getTxn] at h
  | cons a l ih =>
    unfold getTxn at *
    rw [List.cons_append, List.find?_cons] at *
    cases ha : (a.transaction_id == id) with
    | true => rw [ha] at h; exact h
    | false => rw [ha] at h; exact ih h

theorem getTxn_append_of_none {st : Store} {id : String}
    (rs : List Transaction) (h : getTxn st id = none) :
    getTxn (st ++ rs) id = getTxn rs id := by
  induction st with
  | nil => rfl
  | cons a l ih =>
    unfold getTxn at *
    rw [List.cons_append, List.find?_cons] at *
    cases ha : (a.transaction_id == id) with
    | true => rw [ha] at h; exact absurd h (by simp)
    | false => rw [ha] at h; exact ih h

theorem mem_of_getTxn {st : Store} {id : String} {r : Transaction}
    (h : getTxn st id = some r) : r ∈ st ∧ r.transaction_id = id := by
  refine ⟨List.mem_of_find?_eq_some h, ?_⟩
  have := List.find?_some h
  exact eq_of_beq this

theorem rowCount_eq_zero_of_getTxn_none {st : Store} {id : String}
    (h : getTxn st id = none) : rowCount st id = 0 := by
  unfold getTxn at h
  unfold rowCount
  rw [List.countP_eq_zero]
  rw [List.find?_eq_none] at h
  exact h

theorem rowCount_append (st rs : List Transaction) (id : String) :
    rowCount (st ++ rs) id = rowCount st id + rowCount rs id :=
  List.countP_append _ _ _

theorem getTxn_markProcessed (st : Store) (id : String) (t : Nat) (id' : String) :
    getTxn (markProcessed st id t) id' =
      (getTxn st id').map (fun r =>
        if r.transaction_id == id then
          { r with status := .PROCESSED, processed_at := some t }
        else r) := by
  induction st with
  | nil => rfl
  | cons a l ih =>
    unfold getTxn markProcessed at *
    rw [List.map_cons, List.find?_cons, List.find?_cons]
    have hid : ((if a.transaction_id == id then
        { a with status := TransactionStatus.PROCESSED, processed_at := some t }
        else a).transaction_id == id') = (a.transaction_id == id') := by
      cases h : (a.transaction_id == id) <;> simp
    rw [hid]
    cases h' : (a.transaction_id == id') with
    | true => simp
    | false => exact ih

theorem rowCount_markProcessed (st : Store) (id : String) (t : Nat) (id' : String) :
    rowCount (markProcessed st id t) id' = rowCount st id' := by
  induction st with
  | nil => rfl
  | cons a l ih =>
    unfold rowCount markProcessed at *
    rw [List.map_cons, List.countP_cons, List.countP_cons]
    have hid : ((if a.transaction_id == id then
        { a with status := TransactionStatus.PROCESSED, processed_at := some t }
        else a).transaction_id == id') = (a.transaction_id == id') := by
      cases h : (a.transaction_id == id) <;> simp
    rw [hid, ih]

theorem get_transaction_state (id : String) (s : SysState) :
    (get_transaction id s).2 = s := by
  unfold get_transaction
  cases getTxn s.store id <;> rfl

/-- The two possible outcomes of a webhook call on the state: either the
state is untouched (any error path or duplicate path), or all five fields
were present, the id was fresh, and exactly one row and one queue entry
were appended. -/
theorem webhook_cases (data : RawPayload) (s : SysState) :
    (webhook data s).state = s ∨
    ∃ tid src dst amt cur,
      data.transaction_id = some tid ∧
      data.source_account = some src ∧
      data.destination_account = some dst ∧
      data.amount = some amt ∧
      data.currency = some cur ∧
      getTxn s.store tid = none ∧
      (webhook data s).state =
        { s with
            store := s.store ++ [mkTxn tid src dst amt cur s.now]
            queue := s.queue ++ [tid] } := by
  cases htid : data.transaction_id with
  | none => left; simp [webhook, htid]
  | some tid =>
    cases hget : getTxn s.store tid with
    | some r => left; simp [webhook, htid, hget]
    | none =>
      cases hsrc : data.source_account with
      | none => left; simp [webhook, htid, hget, hsrc]
      | some src =>
        cases hdst : data.destination_account with
        | none => left; simp [webhook, htid, hget, hsrc, hdst]
        | some dst =>
          cases hamt : data.amount with
          | none => left; simp [webhook, htid, hget, hsrc, hdst, hamt]
          | some amt =>
            cases hcur : data.currency with
            | none => left; simp [webhook, htid, hget, hsrc, hdst, hamt, hcur]
            | some cur =>
              right
              refine ⟨tid, src, dst, amt, cur, rfl, rfl, rfl, rfl, rfl, hget, ?_⟩
              simp [webhook, htid, hget, hsrc, hdst, hamt, hcur]

/-- Characterisation of one worker iteration when the queue head is `hd`:
either the head's record is absent or not `PROCESSING` and only the queue
shrinks, or it is `PROCESSING` and it gets marked processed after the
30-second simulated delay. -/
theorem workerStep_eq (s : SysState) (hd : String) (rest : List String)
    (hq : s.queue = hd :: rest) :
    ((∀ txn, getTxn s.store hd = some txn → txn.status ≠ .PROCESSING) →
        workerStep s = { s with queue := rest }) ∧
    (∀ txn, getTxn s.store hd = some txn → txn.status = .PROCESSING →
        workerStep s =
          { store := markProcessed s.store hd (s.now + 30)
            queue := rest
            now := s.now + 30 }) := by
  constructor
  · intro hno
    cases hg : getTxn s.store hd with
    | none => simp [workerStep, hq, hg]
    | some txn =>
      have : txn.status ≠ .PROCESSING := hno txn hg
      simp [workerStep, hq, hg, this]
  · intro txn hg hst
    simp [workerStep, hq, hg, hst]

/-- The invariant body: `processed_at` is set exactly on `PROCESSED` rows,
and every row was created no later than the current clock. -/
def storeInv (s : SysState) : Prop :=
  ∀ r ∈ s.store,
    (r.processed_at.isSome ↔ r.status = .PROCESSED) ∧ r.created_at ≤ s.now

theorem step_preserves_inv {s s' : SysState} (hstep : Step s s')
    (ih : storeInv s) : storeInv s' := by
  cases hstep with
  | submit data s =>
    rcases webhook_cases data s with heq | ⟨tid, src, dst, amt, cur, _, _, _, _, _, hnone, heq⟩
    · rw [storeInv, heq]; exact ih
    · rw [storeInv, heq]
      intro r hrm
      rcases List.mem_append.mp hrm with hmem | hmem
      · exact ih r hmem
      · rw [List.mem_singleton] at hmem
        subst hmem
        exact ⟨by simp [mkTxn], by simp [mkTxn]⟩
  | worker s hne =>
    cases hq : s.queue with
    | nil => exact absurd hq hne
    | cons hd rest =>
      cases hg : getTxn s.store hd with
      | none =>
        rw [storeInv,
          (workerStep_eq s hd rest hq).1 (fun txn htxn => by rw [hg] at htxn; cases htxn)]
        exact ih
      | some txn =>
        by_cases hst : txn.status = .PROCESSING
        · rw [storeInv, (workerStep_eq s hd rest hq).2 txn hg hst]
          intro r hrm
          rcases List.mem_map.mp hrm with ⟨r₀, hr₀, hfr⟩
          subst hfr
          rcases ih r₀ hr₀ with ⟨hiff, hle⟩
          cases hbeq : (r₀.transaction_id == hd) with
          | true =>
            simp only [hbeq, if_true]
            exact ⟨by simp, le_trans hle (Nat.le_add_right _ _)⟩
          | false =>
            simp only [hbeq, Bool.false_eq_true, if_false]
            exact ⟨hiff, le_trans hle (Nat.le_add_right _ _)⟩
        · rw [storeInv, (workerStep_eq s hd rest hq).1
            (fun txn' htxn' => by rw [hg] at htxn'; cases htxn'; exact hst)]
          exact ih
  | query id s => rw [storeInv, get_transaction_state]; exact ih
  | tick δ s =>
    intro r hrm
    exact ⟨(ih r hrm).1, le_trans (ih r hrm).2 (Nat.le_add_right _ _)⟩

/-- Every reachable state satisfies the invariant. -/
theorem reachable_inv {s : SysState} (h : Reachable s) :
    ∀ r ∈ s.store,
      (r.processed_at.isSome ↔ r.status = .PROCESSED) ∧ r.created_at ≤ s.now := by
  have : storeInv s := by
    induction h with
    | init => intro r hr; simp [initState] at hr
    | step hr hstep ih => exact step_preserves_inv hstep ih
  exact this

/-- A concrete valid webhook payload used by the witnesses below. -/
def P1 : RawPayload := ⟨some "t1", some "A", some "B", some 100, some "USD"⟩

/-- The state after POSTing `P1` to the empty system. -/
def W1 : SysState := (webhook P1 initState).state

/-- A proof that `W1` is reachable, packaged for the witnesses below. -/
theorem W1_reachable : Reachable W1 :=
  Reachable.step Reachable.init (Step.submit P1 initState)

/-- C3: in every reachable store state, a stored record's `processed_at`
is set if and only if its `status` is `PROCESSED`; records are created
`PROCESSING` with no `processed_at`, and the worker sets both together. -/
theorem processed_at_iff_status_processed {s : SysState} (h : Reachable s) :
    ∀ r ∈ s.store, (r.processed_at.isSome ↔ r.status = .PROCESSED) :=
  fun r hr => (reachable_inv h r hr).1

/-- Witness for C3 at the reachable state `W1` and its single record. -/
theorem processed_at_iff_status_processed_witness :
    (mkTxn "t1" "A" "B" 100 "USD" 0).processed_at.isSome ↔
      (mkTxn "t1" "A" "B" 100 "USD" 0).status = .PROCESSED :=
  processed_at_iff_status_processed W1_reachable
    (mkTxn "t1" "A" "B" 100 "USD" 0) (by decide)

/-- C5: one worker iteration on the dequeued head: if the record is absent
or not `PROCESSING`, the store is left completely unchanged; otherwise the
clock advances by the 30-second simulated delay and the record is updated
to `PROCESSED` with `processed_at` set to a time ≥ its `created_at`. -/
theorem worker_step_correct {s : SysState} (hreach : Reachable s)
    {id : String} {rest : List String} (hq : s.queue = id :: rest) :
    ((∀ r, getTxn s.store id = some r → r.status ≠ .PROCESSING) →
        (workerStep s).store = s.store ∧ (workerStep s).queue = rest) ∧
    (∀ r, getTxn s.store id = some r → r.status = .PROCESSING →
        (workerStep s).now = s.now + 30 ∧
        getTxn (workerStep s).store id =
          some { r with status := .PROCESSED, processed_at := some (s.now + 30) } ∧
        r.created_at ≤ s.now + 30) := by
  constructor
  · intro hno
    rw [(workerStep_eq s id rest hq).1 hno]
    exact ⟨rfl, rfl⟩
  · intro r hr hst
    rw [(workerStep_eq s id rest hq).2 r hr hst]
    refine ⟨rfl, ?_, ?_⟩
    · show getTxn (markProcessed s.store id (s.now + 30)) id = _
      rw [getTxn_markProcessed, hr]
      have hid : r.transaction_id = id := (mem_of_getTxn hr).2
      simp [hid]
    · exact le_trans (reachable_inv hreach r (mem_of_getTxn hr).1).2
        (Nat.le_add_right _ _)

/-- Witness for C5: in the reachable state `W1` the queue head `t1` is a
`PROCESSING` record, and one worker iteration marks it processed at time
30 ≥ its creation time. -/
theorem worker_step_correct_witness :
    W1.queue = "t1" :: [] ∧
    ((workerStep W1).now = W1.now + 30 ∧
      getTxn (workerStep W1).store "t1" =
        some { mkTxn "t1" "A" "B" 100 "USD" 0 with
                status := .PROCESSED, processed_at := some (W1.now + 30) } ∧
      (mkTxn "t1" "A" "B" 100 "USD" 0).created_at ≤ W1.now + 30) :=
  ⟨rfl,
    (worker_step_correct W1_reachable rfl).2
      (mkTxn "t1" "A" "B" 100 "USD" 0) (by decide) (by decide)⟩

/-- Across any single operation, a stored record is never deleted and is
either left exactly as it was or (only by the worker, only from
`PROCESSING`) updated to `PROCESSED` with `processed_at` set. -/
theorem getTxn_step {s s' : SysState} (hstep : Step s s') {id : String}
    {r : Transaction} (hr : getTxn s.store id = some r) :
    ∃ r', getTxn s'.store id = some r' ∧
      (r' = r ∨ (r.status = .PROCESSING ∧
        r' = { r with status := .PROCESSED, processed_at := some (s.now + 30) })) := by
  cases hstep with
  | submit data s1 =>
    rcases webhook_cases data s with heq | ⟨tid, src, dst, amt, cur, _, _, _, _, _, hnone, heq⟩
    · rw [heq]; exact ⟨r, hr, Or.inl rfl⟩
    · rw [heq]; exact ⟨r, getTxn_append_of_some _ hr, Or.inl rfl⟩
  | worker s1 hne =>
    cases hq : s.queue with
    | nil => exact absurd hq hne
    | cons hd rest =>
      cases hg : getTxn s.store hd with
      | none =>
        rw [(workerStep_eq s hd rest hq).1 (fun t ht => by rw [hg] at ht; cases ht)]
        exact ⟨r, hr, Or.inl rfl⟩
      | some txn =>
        by_cases hst : txn.status = .PROCESSING
        · rw [(workerStep_eq s hd rest hq).2 txn hg hst]
          show ∃ r', getTxn (markProcessed s.store hd (s.now + 30)) id = some r' ∧ _
          rw [getTxn_markProcessed, hr]
          cases hbeq : (r.transaction_id == hd) with
          | true =>
            have hid : r.transaction_id = hd := eq_of_beq hbeq
            have hid2 : r.transaction_id = id := (mem_of_getTxn hr).2
            have htr : txn = r := by
              rw [← hid, hid2, hr] at hg
              exact (Option.some.injEq _ _ ▸ hg).symm
            refine ⟨{ r with status := .PROCESSED, processed_at := some (s.now + 30) },
              ?_, Or.inr ⟨?_, rfl⟩⟩
            · simp [hid]
            · rw [← htr]; exact hst
          | false =>
            have hne2 : ¬ r.transaction_id = hd :=
              fun hcontra => by simp [hcontra] at hbeq
            refine ⟨r, ?_, Or.inl rfl⟩
            simp [hne2]
        · rw [(workerStep_eq s hd rest hq).1
            (fun t ht => by rw [hg] at ht; cases ht; exact hst)]
          exact ⟨r, hr, Or.inl rfl⟩
  | query qid s1 => rw [get_transaction_state]; exact ⟨r, hr, Or.inl rfl⟩
  | tick δ s1 => exact ⟨r, hr, Or.inl rfl⟩

/-- C4: a record's `status` is always one of `PROCESSING`/`PROCESSED`;
across any operation it either stays put or moves `PROCESSING → PROCESSED`
(never the reverse), and `PROCESSED` is terminal. -/
theorem status_transition_safety {s s' : SysState} (hstep : Step s s')
    (id : String) (r : Transaction) (hr : getTxn s.store id = some r) :
    (r.status = .PROCESSING ∨ r.status = .PROCESSED) ∧
    ∃ r', getTxn s'.store id = some r' ∧
      (r'.status = r.status ∨ (r.status = .PROCESSING ∧ r'.status = .PROCESSED)) ∧
      (r.status = .PROCESSED → r'.status = .PROCESSED) := by
  refine ⟨by cases r.status <;> simp, ?_⟩
  rcases getTxn_step hstep hr with ⟨r', hr', hcase⟩
  refine ⟨r', hr', ?_, ?_⟩
  · rcases hcase with rfl | ⟨hp, rfl⟩
    · exact Or.inl rfl
    · exact Or.inr ⟨hp, rfl⟩
  · intro hpd
    rcases hcase with rfl | ⟨hp, rfl⟩
    · exact hpd
    · rfl

/-- Witness for C4: the worker step on the reachable state `W1` takes the
`PROCESSING` record `t1` to `PROCESSED`. -/
theorem status_transition_safety_witness :
    ((mkTxn "t1" "A" "B" 100 "USD" 0).status = .PROCESSING ∨
      (mkTxn "t1" "A" "B" 100 "USD" 0).status = .PROCESSED) ∧
    ∃ r', getTxn (workerStep W1).store "t1" = some r' ∧
      (r'.status = (mkTxn "t1" "A" "B" 100 "USD" 0).status ∨
        ((mkTxn "t1" "A" "B" 100 "USD" 0).status = .PROCESSING ∧
          r'.status = .PROCESSED)) ∧
      ((mkTxn "t1" "A" "B" 100 "USD" 0).status = .PROCESSED →
        r'.status = .PROCESSED) :=
  status_transition_safety (Step.worker W1 (by decide)) "t1"
    (mkTxn "t1" "A" "B" 100 "USD" 0) (by decide)

/-- A second concrete payload: same `transaction_id` as `P1` but every
other field different. -/
def P2 : RawPayload := ⟨some "t1", some "X", some "Y", some 999, some "EUR"⟩

/-- C10: after creation, `transaction_id`, `source_account`,
`destination_account`, `amount`, `currency` and `created_at` are never
changed by any operation, and a duplicate submission (any payload carrying
an existing `transaction_id`, whatever its other fields) leaves the whole
state unchanged. -/
theorem created_fields_immutable {s s' : SysState} (hstep : Step s s')
    (id : String) (r : Transaction) (hr : getTxn s.store id = some r) :
    (∃ r', getTxn s'.store id = some r' ∧
      r'.transaction_id = r.transaction_id ∧
      r'.source_account = r.source_account ∧
      r'.destination_account = r.destination_account ∧
      r'.amount = r.amount ∧
      r'.currency = r.currency ∧
      r'.created_at = r.created_at) ∧
    (∀ p : RawPayload, p.transaction_id = some id → (webhook p s).state = s) := by
  constructor
  · rcases getTxn_step hstep hr with ⟨r', hr', hcase⟩
    rcases hcase with rfl | ⟨hp, rfl⟩
    · exact ⟨r', hr', rfl, rfl, rfl, rfl, rfl, rfl⟩
    · exact ⟨_, hr', rfl, rfl, rfl, rfl, rfl, rfl⟩
  · intro p hp
    rcases webhook_cases p s with heq | ⟨tid, src, dst, amt, cur, htid, _, _, _, _, hnone, heq⟩
    · exact heq
    · rw [hp] at htid
      cases htid
      rw [hr] at hnone
      cases hnone

/-- Witness for C10: resubmitting id `t1` with entirely different field
values onto the reachable state `W1` changes nothing, and the record's
created fields survive that step. -/
theorem created_fields_immutable_witness :
    (∃ r', getTxn (webhook P2 W1).state.store "t1" = some r' ∧
      r'.transaction_id = (mkTxn "t1" "A" "B" 100 "USD" 0).transaction_id ∧
      r'.source_account = (mkTxn "t1" "A" "B" 100 "USD" 0).source_account ∧
      r'.destination_account = (mkTxn "t1" "A" "B" 100 "USD" 0).destination_account ∧
      r'.amount = (mkTxn "t1" "A" "B" 100 "USD" 0).amount ∧
      r'.currency = (mkTxn "t1" "A" "B" 100 "USD" 0).currency ∧
      r'.created_at = (mkTxn "t1" "A" "B" 100 "USD" 0).created_at) ∧
    (∀ p : RawPayload, p.transaction_id = some "t1" → (webhook p W1).state = W1) :=
  created_fields_immutable (Step.submit P2 W1) "t1"
    (mkTxn "t1" "A" "B" 100 "USD" 0) (by decide)

theorem getTxn_singleton_self (r : Transaction) (id : String)
    (h : r.transaction_id = id) : getTxn [r] id = some r := by
  simp [getTxn, h]

theorem rowCount_singleton_self (r : Transaction) (id : String)
    (h : r.transaction_id = id) : rowCount [r] id = 1 := by
  simp [rowCount, h]

/-- A webhook call whose `transaction_id` is already stored answers the
duplicate acknowledgment and leaves everything untouched. -/
theorem webhook_dup {p : RawPayload} {tid : String} (hp : p.transaction_id = some tid)
    {s : SysState} {r : Transaction} (hget : getTxn s.store tid = some r) :
    webhook p s = ⟨.ok ⟨202, "Already processing"⟩, s, 1⟩ := by
  simp [webhook, hp, hget]

theorem queueCount_append (q1 q2 : List String) (id : String) :
    queueCount (q1 ++ q2) id = queueCount q1 id + queueCount q2 id :=
  List.countP_append _ _ _

theorem queueCount_singleton_self (id : String) : queueCount [id] id = 1 := by
  simp [queueCount]

theorem submitN_fix {p : RawPayload} {s : SysState}
    (h : (webhook p s).state = s) : ∀ n, submitN n p s = s := by
  intro n
  induction n with
  | zero => rfl
  | succ n ih =>
    show submitN n p (webhook p s).state = s
    rw [h]
    exact ih

/-- C2: submitting one fixed valid payload N ≥ 1 times sequentially
creates exactly one record and performs exactly one enqueue; the first
response is "Queued for processing" and every later one is the duplicate
acknowledgment with the state bit-for-bit unchanged. -/
theorem idempotent_creation (p : RawPayload) (tid src dst cur : String)
    (amt : Int) (s : SysState)
    (hp : p = ⟨some tid, some src, some dst, some amt, some cur⟩)
    (hfresh : getTxn s.store tid = none) :
    (webhook p s).result = .ok ⟨202, "Queued for processing"⟩ ∧
    (webhook p s).state.store = s.store ++ [mkTxn tid src dst amt cur s.now] ∧
    (webhook p s).state.queue = s.queue ++ [tid] ∧
    rowCount (webhook p s).state.store tid = rowCount s.store tid + 1 ∧
    rowCount (webhook p s).state.store tid = 1 ∧
    queueCount (webhook p s).state.queue tid = queueCount s.queue tid + 1 ∧
    (∀ n, 1 ≤ n → submitN n p s = (webhook p s).state) ∧
    (∀ n, 1 ≤ n →
      (webhook p (submitN n p s)).result = .ok ⟨202, "Already processing"⟩ ∧
      (webhook p (submitN n p s)).state = submitN n p s) := by
  subst hp
  have hres : (webhook ⟨some tid, some src, some dst, some amt, some cur⟩ s).result =
      .ok ⟨202, "Queued for processing"⟩ := by
    simp [webhook, hfresh]
  have hstore : (webhook ⟨some tid, some src, some dst, some amt, some cur⟩ s).state.store =
      s.store ++ [mkTxn tid src dst amt cur s.now] := by
    simp [webhook, hfresh]
  have hqueue : (webhook ⟨some tid, some src, some dst, some amt, some cur⟩ s).state.queue =
      s.queue ++ [tid] := by
    simp [webhook, hfresh]
  have hget1 : getTxn (webhook ⟨some tid, some src, some dst, some amt, some cur⟩ s).state.store tid =
      some (mkTxn tid src dst amt cur s.now) := by
    rw [hstore, getTxn_append_of_none _ hfresh]
    exact getTxn_singleton_self _ tid rfl
  have hdup : (webhook ⟨some tid, some src, some dst, some amt, some cur⟩
      (webhook ⟨some tid, some src, some dst, some amt, some cur⟩ s).state).result =
      .ok ⟨202, "Already processing"⟩ := by
    rw [webhook_dup rfl hget1]
  have hdupstate : (webhook ⟨some tid, some src, some dst, some amt, some cur⟩
      (webhook ⟨some tid, some src, some dst, some amt, some cur⟩ s).state).state =
      (webhook ⟨some tid, some src, some dst, some amt, some cur⟩ s).state := by
    rw [webhook_dup rfl hget1]
  have hN : ∀ n, 1 ≤ n →
      submitN n ⟨some tid, some src, some dst, some amt, some cur⟩ s =
      (webhook ⟨some tid, some src, some dst, some amt, some cur⟩ s).state := by
    intro n hn
    cases n with
    | zero => cases hn
    | succ m =>
      show submitN m _ (webhook _ s).state = _
      exact submitN_fix hdupstate m
  refine ⟨hres, hstore, hqueue, ?_, ?_, ?_, hN, ?_⟩
  · rw [hstore, rowCount_append, rowCount_singleton_self _ tid rfl]
  · rw [hstore, rowCount_append, rowCount_singleton_self _ tid rfl,
      rowCount_eq_zero_of_getTxn_none hfresh]
  · rw [hqueue, queueCount_append, queueCount_singleton_self]
  · intro n hn
    rw [hN n hn]
    exact ⟨hdup, hdupstate⟩

/-- Witness for C2 at the empty initial state with payload `P1`. -/
theorem idempotent_creation_witness :
    (webhook P1 initState).result = .ok ⟨202, "Queued for processing"⟩ ∧
    (webhook P1 initState).state.store =
      initState.store ++ [mkTxn "t1" "A" "B" 100 "USD" initState.now] ∧
    (webhook P1 initState).state.queue = initState.queue ++ ["t1"] ∧
    rowCount (webhook P1 initState).state.store "t1" =
      rowCount initState.store "t1" + 1 ∧
    rowCount (webhook P1 initState).state.store "t1" = 1 ∧
    queueCount (webhook P1 initState).state.queue "t1" =
      queueCount initState.queue "t1" + 1 ∧
    (∀ n, 1 ≤ n → submitN n P1 initState = (webhook P1 initState).state) ∧
    (∀ n, 1 ≤ n →
      (webhook P1 (submitN n P1 initState)).result =
        .ok ⟨202, "Already processing"⟩ ∧
      (webhook P1 (submitN n P1 initState)).state = submitN n P1 initState) :=
  idempotent_creation P1 "t1" "A" "B" "USD" 100 initState rfl (by decide)

/-- C7: the query endpoint mutates nothing; an unknown id yields the 404
not-found signal (never a default record), and a stored id yields exactly
the record's fields, with `processed_at` null precisely while the record
is still `PROCESSING`. -/
theorem query_correct {s : SysState} (hreach : Reachable s) (id : String) :
    (get_transaction id s).2 = s ∧
    (getTxn s.store id = none →
      (get_transaction id s).1 = .notFound 404 "Transaction not found") ∧
    (∀ r, getTxn s.store id = some r →
      (get_transaction id s).1 = .found
        ⟨r.transaction_id, r.source_account, r.destination_account, r.amount,
          r.currency, r.status.value, r.created_at, r.processed_at⟩ ∧
      (r.processed_at = none ↔ r.status = .PROCESSING)) := by
  refine ⟨get_transaction_state id s, ?_, ?_⟩
  · intro h
    simp [get_transaction, h]
  · intro r hr
    refine ⟨by simp [get_transaction, hr], ?_⟩
    have hiff := (reachable_inv hreach r (mem_of_getTxn hr).1).1
    constructor
    · intro hpn
      cases hst : r.status with
      | PROCESSING => rfl
      | PROCESSED =>
        have := hiff.mpr hst
        rw [hpn] at this
        cases this
    · intro hst
      cases hpa : r.processed_at with
      | none => rfl
      | some t =>
        have : r.status = .PROCESSED := hiff.mp (by rw [hpa]; rfl)
        rw [hst] at this
        cases this

/-- Witness for C7 at the reachable state `W1` and id `t1`. -/
theorem query_correct_witness :
    (get_transaction "t1" W1).2 = W1 ∧
    (getTxn W1.store "t1" = none →
      (get_transaction "t1" W1).1 = .notFound 404 "Transaction not found") ∧
    (∀ r, getTxn W1.store "t1" = some r →
      (get_transaction "t1" W1).1 = .found
        ⟨r.transaction_id, r.source_account, r.destination_account, r.amount,
          r.currency, r.status.value, r.created_at, r.processed_at⟩ ∧
      (r.processed_at = none ↔ r.status = .PROCESSING)) :=
  query_correct W1_reachable "t1"

/-- C9: a structurally valid submit is always answered with a 202
acceptance carrying a human-readable message, "Queued for processing" when
the id is new and a distinct duplicate acknowledgment when it was already
seen — a duplicate is never an error. -/
theorem submit_always_accepted (p : RawPayload) (tid src dst cur : String)
    (amt : Int) (s : SysState)
    (hp : p = ⟨some tid, some src, some dst, some amt, some cur⟩) :
    ∃ resp, (webhook p s).result = .ok resp ∧
      resp.statusCode = 202 ∧
      ((getTxn s.store tid).isSome → resp.message = "Already processing") ∧
      (getTxn s.store tid = none → resp.message = "Queued for processing") ∧
      "Already processing" ≠ "Queued for processing" ∧
      "Idempotent: already exists" ≠ "Queued for processing" := by
  subst hp
  cases hget : getTxn s.store tid with
  | none =>
    refine ⟨⟨202, "Queued for processing"⟩, ?_, rfl, ?_, fun _ => rfl, by decide, by decide⟩
    · simp [webhook, hget]
    · intro hs
      simp at hs
  | some r =>
    refine ⟨⟨202, "Already processing"⟩, ?_, rfl, fun _ => rfl, ?_, by decide, by decide⟩
    · simp [webhook, hget]
    · intro hn
      simp at hn

/-- Witness for C9: resubmitting `P1` onto `W1`, where `t1` already
exists, is still answered 202 with the duplicate message. -/
theorem submit_always_accepted_witness :
    ∃ resp, (webhook P1 W1).result = .ok resp ∧
      resp.statusCode = 202 ∧
      ((getTxn W1.store "t1").isSome → resp.message = "Already processing") ∧
      (getTxn W1.store "t1" = none → resp.message = "Queued for processing") ∧
      "Already processing" ≠ "Queued for processing" ∧
      "Idempotent: already exists" ≠ "Queued for processing" :=
  submit_always_accepted P1 "t1" "A" "B" "USD" 100 W1 rfl

/-- Following the spec's words, not the source: a "malformed-request
client error" would be a response actually returned to the caller with a
4xx status code.  An exception escaping the handler is not one: FastAPI
surfaces it as a 500 internal server error. -/
def clientErrorResult : Except PyErr WebhookResponse → Bool
  | .ok resp => decide (400 ≤ resp.statusCode) && decide (resp.statusCode < 500)
  | .error _ => false

/-- A payload with every required field except `currency`. -/
def P_missing_currency : RawPayload := ⟨some "t9", some "A", some "B", some 100, none⟩

/-- C8 counterexample: a payload missing `currency` is not rejected as a
malformed-request client error — the handler raises an uncaught `KeyError`
(HTTP 500), and it does so only after the duplicate-lookup store read, so
the rejection is also not "before any store interaction". -/
theorem malformed_rejection_counterexample :
    (webhook P_missing_currency initState).result = .error (.keyError "currency") ∧
    clientErrorResult (webhook P_missing_currency initState).result = false ∧
    (webhook P_missing_currency initState).storeReads = 1 := by decide

/-- C8 amended: a payload missing `transaction_id` raises `KeyError`
before any store interaction; a payload with a fresh `transaction_id`
missing any other required field raises `KeyError` after exactly the one
duplicate-lookup read.  Both surface as an uncaught exception (HTTP 500),
not a structured client rejection; in both cases the state is unchanged —
no record is created and nothing is enqueued. -/
theorem malformed_rejection_amended (p : RawPayload) (s : SysState) :
    (p.transaction_id = none →
      (webhook p s).result = .error (.keyError "transaction_id") ∧
      (webhook p s).state = s ∧ (webhook p s).storeReads = 0) ∧
    (∀ tid, p.transaction_id = some tid → getTxn s.store tid = none →
      (p.source_account = none ∨ p.destination_account = none ∨
        p.amount = none ∨ p.currency = none) →
      (∃ f, (webhook p s).result = .error (.keyError f)) ∧
      (webhook p s).state = s ∧ (webhook p s).storeReads = 1) := by
  constructor
  · intro h
    exact ⟨by simp [webhook, h], by simp [webhook, h], by simp [webhook, h]⟩
  · intro tid htid hget hmiss
    cases hsrc : p.source_account with
    | none =>
      exact ⟨⟨"source_account", by simp [webhook, htid, hget, hsrc]⟩,
        by simp [webhook, htid, hget, hsrc], by simp [webhook, htid, hget, hsrc]⟩
    | some src =>
      cases hdst : p.destination_account with
      | none =>
        exact ⟨⟨"destination_account", by simp [webhook, htid, hget, hsrc, hdst]⟩,
          by simp [webhook, htid, hget, hsrc, hdst],
          by simp [webhook, htid, hget, hsrc, hdst]⟩
      | some dst =>
        cases hamt : p.amount with
        | none =>
          exact ⟨⟨"amount", by simp [webhook, htid, hget, hsrc, hdst, hamt]⟩,
            by simp [webhook, htid, hget, hsrc, hdst, hamt],
            by simp [webhook, htid, hget, hsrc, hdst, hamt]⟩
        | some amt =>
          cases hcur : p.currency with
          | none =>
            exact ⟨⟨"currency", by simp [webhook, htid, hget, hsrc, hdst, hamt, hcur]⟩,
              by simp [webhook, htid, hget, hsrc, hdst, hamt, hcur],
              by simp [webhook, htid, hget, hsrc, hdst, hamt, hcur]⟩
          | some cur =>
            rcases hmiss with h | h | h | h
            · rw [h] at hsrc; cases hsrc
            · rw [h] at hdst; cases hdst
            · rw [h] at hamt; cases hamt
            · rw [h] at hcur; cases hcur

/-- Witness for the amended C8 at the concrete missing-currency payload. -/
theorem malformed_rejection_amended_witness :
    (∃ f, (webhook P_missing_currency initState).result = .error (.keyError f)) ∧
    (webhook P_missing_currency initState).state = initState ∧
    (webhook P_missing_currency initState).storeReads = 1 :=
  (malformed_rejection_amended P_missing_currency initState).2 "t9" rfl
    (by decide) (Or.inr (Or.inr (Or.inr rfl)))

/-- The `process_transactions` loop (`app/processor.py` lines 10-20) run
over a finite prefix of dequeued items.  `fault` marks the items whose
handling raises an unexpected internal error (the spec's
`WorkerItemFailure`), striking as the item is picked up, before any store
write.  The loop body has no exception handler and no logging call, so
such an error propagates out of the loop: the run ends with an
`Except.error` carrying the faulting item and the store and clock exactly
as they were when it struck, and no later queue item is touched. -/
def runWorker (fault : String → Bool) :
    List String → Store → Nat → Except (String × Store × Nat) (Store × Nat)
  | [], st, now => .ok (st, now)
  | id :: rest, st, now =>
    if fault id then .error (id, st, now)
    else
      match getTxn st id with
      | some txn =>
        if txn.status = .PROCESSING then
          runWorker fault rest (markProcessed st id (now + 30)) (now + 30)
        else runWorker fault rest st now
      | none => runWorker fault rest st now

/-- Two `PROCESSING` records used by the C6 run. -/
def C6store : Store := [mkTxn "a" "A" "B" 1 "USD" 0, mkTxn "b" "C" "D" 2 "USD" 0]

/-- C6 counterexample: with `a` then `b` queued and the handling of `a`
raising an unexpected error, the loop run terminates at `a` — the
exception propagates (nothing is logged), both records stay `PROCESSING`,
and the loop does not continue with the next item `b`. -/
theorem worker_loop_counterexample :
    runWorker (fun id => id == "a") ["a", "b"] C6store 0 = .error ("a", C6store, 0) ∧
    (∀ r ∈ C6store, r.status = .PROCESSING) := by decide

theorem runWorker_ok_of_no_fault (fault : String → Bool) :
    ∀ (q : List String) (st : Store) (now : Nat), (∀ i ∈ q, fault i = false) →
      ∃ st' now', runWorker fault q st now = .ok (st', now') := by
  intro q
  induction q with
  | nil => intro st now _; exact ⟨st, now, rfl⟩
  | cons a rest ih =>
    intro st now h
    have ha : fault a = false := h a (List.mem_cons_self _ _)
    have hrest : ∀ i ∈ rest, fault i = false :=
      fun i hi => h i (List.mem_cons_of_mem _ hi)
    cases hg : getTxn st a with
    | none =>
      rcases ih st now hrest with ⟨st', now', hok⟩
      exact ⟨st', now', by simp [runWorker, ha, hg, hok]⟩
    | some txn =>
      by_cases hst : txn.status = .PROCESSING
      · rcases ih (markProcessed st a (now + 30)) (now + 30) hrest with ⟨st', now', hok⟩
        exact ⟨st', now', by simp [runWorker, ha, hg, hst, hok]⟩
      · rcases ih st now hrest with ⟨st', now', hok⟩
        exact ⟨st', now', by simp [runWorker, ha, hg, hst, hok]⟩

/-- C6 amended: the loop has no per-item error isolation.  If handling the
dequeued head raises, the error propagates and the whole run terminates
right there, with the store and clock untouched by that item and the rest
of the queue never processed; only a run in which no item faults completes
normally. -/
theorem worker_fault_propagates (fault : String → Bool) (a : String)
    (rest : List String) (st : Store) (now : Nat) :
    (fault a = true → runWorker fault (a :: rest) st now = .error (a, st, now)) ∧
    ((∀ i ∈ a :: rest, fault i = false) →
      ∃ st' now', runWorker fault (a :: rest) st now = .ok (st', now')) := by
  constructor
  · intro h
    simp [runWorker, h]
  · intro h
    exact runWorker_ok_of_no_fault fault (a :: rest) st now h

/-- Witness for the amended C6: a fault on `a` kills the run at `a`; with
no faults the same run completes. -/
theorem worker_fault_propagates_witness :
    runWorker (fun id => id == "a") ("a" :: ["b"]) C6store 0 = .error ("a", C6store, 0) ∧
    (∃ st' now', runWorker (fun _ => false) ("a" :: ["b"]) C6store 0 = .ok (st', now')) :=
  ⟨(worker_fault_propagates (fun id => id == "a") "a" ["b"] C6store 0).1 (by decide),
    (worker_fault_propagates (fun _ => false) "a" ["b"] C6store 0).2 (by decide)⟩

/-! Concurrency model for the duplicate-submission race.  Each inbound
request context runs the `webhook` handler; the event loop may interleave
the contexts between awaits.  The atomic points are the store lookup
(line 28), the commit (line 42, an atomic insert-if-absent: a primary-key
conflict raises `IntegrityError`, answered as a duplicate), and the
enqueue (line 46).  A call is a program counter over those points plus its
(fully present) payload. -/

/-- A complete webhook payload, as carried by each racing call. -/
structure CPayload where
  transaction_id : String
  source_account : String
  destination_account : String
  amount : Int
  currency : String
deriving DecidableEq, Repr

/-- Program counter of one in-flight `webhook` call. -/
inductive CallPC where
  | atLookup
  | atCommit
  | atEnqueue
  | done (resp : WebhookResponse)
deriving DecidableEq, Repr

/-- Whether the call has returned its response. -/
def CallPC.isDone : CallPC → Bool
  | .done _ => true
  | _ => false

/-- One racing `webhook` call: its payload and where it stands. -/
structure Call where
  payload : CPayload
  pc : CallPC
deriving DecidableEq, Repr

/-- One atomic step of a single call against the shared state, following
`app/main.py` lines 28-47: the lookup answers the duplicate immediately;
the commit atomically inserts if absent and otherwise takes the
`IntegrityError` path; the enqueue appends to the queue and returns. -/
def callStep (c : Call) (g : SysState) : CallPC × SysState :=
  match c.pc with
  | .atLookup =>
    match getTxn g.store c.payload.transaction_id with
    | some _ => (.done ⟨202, "Already processing"⟩, g)
    | none => (.atCommit, g)
  | .atCommit =>
    match getTxn g.store c.payload.transaction_id with
    | some _ => (.done ⟨202, "Idempotent: already exists"⟩, g)
    | none =>
      (.atEnqueue,
        { g with store := g.store ++
            [mkTxn c.payload.transaction_id c.payload.source_account
              c.payload.destination_account c.payload.amount
              c.payload.currency g.now] })
  | .atEnqueue =>
    (.done ⟨202, "Queued for processing"⟩,
      { g with queue := enqueue_transaction c.payload.transaction_id g.queue })
  | .done r => (.done r, g)

/-- Shared state plus the set of concurrently running calls. -/
structure CState where
  sys : SysState
  calls : List Call
deriving DecidableEq, Repr

/-- The scheduler picks any not-yet-finished call and runs its next atomic
step; everything else is preserved. -/
inductive CStep : CState → CState → Prop where
  | interleave (pre post : List Call) (c : Call) (g : SysState)
      (pc' : CallPC) (g' : SysState)
      (hnd : c.pc.isDone = false)
      (hcall : callStep c g = (pc', g')) :
      CStep ⟨g, pre ++ c :: post⟩ ⟨g', pre ++ ⟨c.payload, pc'⟩ :: post⟩

/-- All calls have returned. -/
abbrev Terminal (cs : CState) : Prop := ∀ c ∈ cs.calls, c.pc.isDone = true

/-- The call finished with the `Queued` response. -/
def doneQueued : Call → Bool
  | ⟨_, .done r⟩ => r == ⟨202, "Queued for processing"⟩
  | _ => false

/-- The call finished with either duplicate acknowledgment. -/
def doneDup : Call → Bool
  | ⟨_, .done r⟩ =>
    r == ⟨202, "Already processing"⟩ || r == ⟨202, "Idempotent: already exists"⟩
  | _ => false

/-- The call's atomic insert has succeeded (it is at the enqueue point or
already finished with `Queued`). -/
def passedCommit : Call → Bool
  | ⟨_, .atEnqueue⟩ => true
  | ⟨_, .done r⟩ => r == ⟨202, "Queued for processing"⟩
  | _ => false

theorem rowCount_pos_of_getTxn_some {st : Store} {t : String} {r : Transaction}
    (h : getTxn st t = some r) : 1 ≤ rowCount st t := by
  rcases mem_of_getTxn h with ⟨hm, hid⟩
  exact List.countP_pos_iff.mpr ⟨r, hm, by simp [hid]⟩

theorem countP_same_middle (pre post : List Call) (c c' : Call) (p : Call → Bool)
    (h : p c' = p c) :
    (pre ++ c' :: post).countP p = (pre ++ c :: post).countP p := by
  simp [List.countP_append, List.countP_cons, h]

theorem countP_flip_middle (pre post : List Call) (c c' : Call) (p : Call → Bool)
    (hc : p c = false) (hc' : p c' = true) :
    (pre ++ c' :: post).countP p = (pre ++ c :: post).countP p + 1 := by
  simp [List.countP_append, List.countP_cons, hc, hc']
  omega

theorem mem_middle {d : Call} (pre post : List Call) (c c' : Call)
    (hd : d ∈ pre ++ c' :: post) : d = c' ∨ d ∈ pre ++ c :: post := by
  rcases List.mem_append.mp hd with h | h
  · exact Or.inr (List.mem_append_left _ h)
  · rcases List.mem_cons.mp h with h | h
    · exact Or.inl h
    · exact Or.inr (List.mem_append_right _ (List.mem_cons_of_mem _ h))

/-- Inductive invariant of the race on identity `t`: the number of stored
`t`-rows equals the number of calls past their commit and never exceeds
one; the number of `t`-enqueues equals the number of calls finished with
`Queued`; finished calls carry one of the three handler responses; and a
call can only have acknowledged a duplicate if the row really exists. -/
structure CInv (t : String) (cs : CState) : Prop where
  tids : ∀ c ∈ cs.calls, c.payload.transaction_id = t
  row_eq : rowCount cs.sys.store t = cs.calls.countP passedCommit
  row_le : rowCount cs.sys.store t ≤ 1
  q_eq : queueCount cs.sys.queue t = cs.calls.countP doneQueued
  done_resp : ∀ c ∈ cs.calls, ∀ r, c.pc = .done r →
      r = ⟨202, "Queued for processing"⟩ ∨ r = ⟨202, "Already processing"⟩ ∨
      r = ⟨202, "Idempotent: already exists"⟩
  dup_mem : ∀ c ∈ cs.calls, doneDup c = true → 1 ≤ rowCount cs.sys.store t

/-- The invariant is preserved by every scheduler step. -/
theorem cstep_inv {t : String} {cs cs' : CState} (hstep : CStep cs cs')
    (inv : CInv t cs) : CInv t cs' := by
  cases hstep with
  | interleave pre post c g pc' g' hnd hcall =>
    rcases c with ⟨cp, cpc⟩
    have htc : cp.transaction_id = t :=
      inv.tids ⟨cp, cpc⟩ (List.mem_append_right _ (List.mem_cons_self _ _))
    cases cpc with
    | atLookup =>
      cases hg : getTxn g.store cp.transaction_id with
      | some r =>
        have hc : callStep ⟨cp, .atLookup⟩ g =
            (.done ⟨202, "Already processing"⟩, g) := by
          simp [callStep, hg]
        rw [hc] at hcall
        injection hcall with h1 h2
        subst h1
        subst h2
        dsimp only
        refine ⟨?_, ?_, inv.row_le, ?_, ?_, ?_⟩
        · intro d hd
          rcases mem_middle pre post ⟨cp, .atLookup⟩ _ hd with rfl | hd'
          · exact htc
          · exact inv.tids d hd'
        · rw [countP_same_middle pre post ⟨cp, .atLookup⟩
            ⟨cp, .done ⟨202, "Already processing"⟩⟩ passedCommit rfl]
          exact inv.row_eq
        · rw [countP_same_middle pre post ⟨cp, .atLookup⟩
            ⟨cp, .done ⟨202, "Already processing"⟩⟩ doneQueued rfl]
          exact inv.q_eq
        · intro d hd r' hr'
          rcases mem_middle pre post ⟨cp, .atLookup⟩ _ hd with rfl | hd'
          · injection hr' with h
            exact Or.inr (Or.inl h.symm)
          · exact inv.done_resp d hd' r' hr'
        · intro d hd hdup
          exact rowCount_pos_of_getTxn_some (htc ▸ hg)
      | none =>
        have hc : callStep ⟨cp, .atLookup⟩ g = (.atCommit, g) := by
          simp [callStep, hg]
        rw [hc] at hcall
        injection hcall with h1 h2
        subst h1
        subst h2
        dsimp only
        refine ⟨?_, ?_, inv.row_le, ?_, ?_, ?_⟩
        · intro d hd
          rcases mem_middle pre post ⟨cp, .atLookup⟩ _ hd with rfl | hd'
          · exact htc
          · exact inv.tids d hd'
        · rw [countP_same_middle pre post ⟨cp, .atLookup⟩
            ⟨cp, .atCommit⟩ passedCommit rfl]
          exact inv.row_eq
        · rw [countP_same_middle pre post ⟨cp, .atLookup⟩
            ⟨cp, .atCommit⟩ doneQueued rfl]
          exact inv.q_eq
        · intro d hd r' hr'
          rcases mem_middle pre post ⟨cp, .atLookup⟩ _ hd with rfl | hd'
          · cases hr'
          · exact inv.done_resp d hd' r' hr'
        · intro d hd hdup
          rcases mem_middle pre post ⟨cp, .atLookup⟩ _ hd with rfl | hd'
          · simp [doneDup] at hdup
          · exact inv.dup_mem d hd' hdup
    | atCommit =>
      cases hg : getTxn g.store cp.transaction_id with
      | some r =>
        have hc : callStep ⟨cp, .atCommit⟩ g =
            (.done ⟨202, "Idempotent: already exists"⟩, g) := by
          simp [callStep, hg]
        rw [hc] at hcall
        injection hcall with h1 h2
        subst h1
        subst h2
        dsimp only
        refine ⟨?_, ?_, inv.row_le, ?_, ?_, ?_⟩
        · intro d hd
          rcases mem_middle pre post ⟨cp, .atCommit⟩ _ hd with rfl | hd'
          · exact htc
          · exact inv.tids d hd'
        · rw [countP_same_middle pre post ⟨cp, .atCommit⟩
            ⟨cp, .done ⟨202, "Idempotent: already exists"⟩⟩ passedCommit rfl]
          exact inv.row_eq
        · rw [countP_same_middle pre post ⟨cp, .atCommit⟩
            ⟨cp, .done ⟨202, "Idempotent: already exists"⟩⟩ doneQueued rfl]
          exact inv.q_eq
        · intro d hd r' hr'
          rcases mem_middle pre post ⟨cp, .atCommit⟩ _ hd with rfl | hd'
          · injection hr' with h
            exact Or.inr (Or.inr h.symm)
          · exact inv.done_resp d hd' r' hr'
        · intro d hd hdup
          exact rowCount_pos_of_getTxn_some (htc ▸ hg)
      | none =>
        have hc : callStep ⟨cp, .atCommit⟩ g =
            (.atEnqueue,
              { g with store := g.store ++
                  [mkTxn cp.transaction_id cp.source_account
                    cp.destination_account cp.amount cp.currency g.now] }) := by
          simp [callStep, hg]
        rw [hc] at hcall
        injection hcall with h1 h2
        subst h1
        subst h2
        dsimp only
        have hzero : rowCount g.store t = 0 :=
          rowCount_eq_zero_of_getTxn_none (htc ▸ hg)
        have hcnt0 : (pre ++ ⟨cp, .atCommit⟩ :: post).countP passedCommit = 0 := by
          rw [← inv.row_eq]
          exact hzero
        have hrow1 : rowCount (g.store ++
            [mkTxn cp.transaction_id cp.source_account cp.destination_account
              cp.amount cp.currency g.now]) t = 1 := by
          rw [rowCount_append, hzero, rowCount_singleton_self _ t htc]
        refine ⟨?_, ?_, ?_, ?_, ?_, ?_⟩
        · intro d hd
          rcases mem_middle pre post ⟨cp, .atCommit⟩ _ hd with rfl | hd'
          · exact htc
          · exact inv.tids d hd'
        · rw [hrow1, countP_flip_middle pre post ⟨cp, .atCommit⟩
            ⟨cp, .atEnqueue⟩ passedCommit rfl rfl, hcnt0]
        · exact le_of_eq hrow1
        · rw [countP_same_middle pre post ⟨cp, .atCommit⟩
            ⟨cp, .atEnqueue⟩ doneQueued rfl]
          exact inv.q_eq
        · intro d hd r' hr'
          rcases mem_middle pre post ⟨cp, .atCommit⟩ _ hd with rfl | hd'
          · cases hr'
          · exact inv.done_resp d hd' r' hr'
        · intro d hd hdup
          exact le_of_eq hrow1.symm
    | atEnqueue =>
      have hc : callStep ⟨cp, .atEnqueue⟩ g =
          (.done ⟨202, "Queued for processing"⟩,
            { g with queue := enqueue_transaction cp.transaction_id g.queue }) := by
        simp [callStep]
      rw [hc] at hcall
      injection hcall with h1 h2
      subst h1
      subst h2
      dsimp only
      refine ⟨?_, ?_, inv.row_le, ?_, ?_, ?_⟩
      · intro d hd
        rcases mem_middle pre post ⟨cp, .atEnqueue⟩ _ hd with rfl | hd'
        · exact htc
        · exact inv.tids d hd'
      · rw [countP_same_middle pre post ⟨cp, .atEnqueue⟩
          ⟨cp, .done ⟨202, "Queued for processing"⟩⟩ passedCommit rfl]
        exact inv.row_eq
      · rw [countP_flip_middle pre post ⟨cp, .atEnqueue⟩
          ⟨cp, .done ⟨202, "Queued for processing"⟩⟩ doneQueued rfl rfl,
          ← inv.q_eq]
        simp only [enqueue_transaction]
        rw [htc, queueCount_append, queueCount_singleton_self]
      · intro d hd r' hr'
        rcases mem_middle pre post ⟨cp, .atEnqueue⟩ _ hd with rfl | hd'
        · injection hr' with h
          exact Or.inl h.symm
        · exact inv.done_resp d hd' r' hr'
      · intro d hd hdup
        rcases mem_middle pre post ⟨cp, .atEnqueue⟩ _ hd with rfl | hd'
        · simp [doneDup] at hdup
        · exact inv.dup_mem d hd' hdup
    | done r => exact absurd hnd (by simp [CallPC.isDone])

theorem cstep_length {cs cs' : CState} (h : CStep cs cs') :
    cs'.calls.length = cs.calls.length := by
  cases h with
  | interleave pre post c g pc' g' hnd hcall => simp

theorem creach_inv {t : String} {cs0 cs : CState}
    (h0 : CInv t cs0) (hreach : Relation.ReflTransGen CStep cs0 cs) :
    CInv t cs := by
  induction hreach with
  | refl => exact h0
  | tail hsteps hstep ih => exact cstep_inv hstep ih

theorem creach_length {cs0 cs : CState}
    (hreach : Relation.ReflTransGen CStep cs0 cs) :
    cs.calls.length = cs0.calls.length := by
  induction hreach with
  | refl => rfl
  | tail hsteps hstep ih => rw [cstep_length hstep, ih]

/-- No call finishes with both the `Queued` and a duplicate response. -/
theorem queued_dup_exclusive (c : Call) :
    ¬(doneQueued c = true ∧ doneDup c = true) := by
  rintro ⟨h1, h2⟩
  rcases c with ⟨p, pc⟩
  cases pc with
  | atLookup => simp [doneQueued] at h1
  | atCommit => simp [doneQueued] at h1
  | atEnqueue => simp [doneQueued] at h1
  | done r =>
    have hq : r = ⟨202, "Queued for processing"⟩ := eq_of_beq h1
    subst hq
    simp [doneDup] at h2

/-- C1: from any initial state in which the identity `t` has no stored row
and no queue entry and N ≥ 1 racing `webhook` calls for `t` are all about
to run their lookup, every schedule that lets all calls finish has exactly
one call answered `Queued`, all N−1 others answered with a duplicate
acknowledgment, exactly one enqueue performed, and exactly one stored row
for `t`. -/
theorem concurrent_dedup (t : String) (cs0 cs : CState)
    (hids : ∀ c ∈ cs0.calls, c.payload.transaction_id = t)
    (hpc0 : ∀ c ∈ cs0.calls, c.pc = .atLookup)
    (hrow0 : rowCount cs0.sys.store t = 0)
    (hq0 : queueCount cs0.sys.queue t = 0)
    (hN : 1 ≤ cs0.calls.length)
    (hreach : Relation.ReflTransGen CStep cs0 cs)
    (hterm : Terminal cs) :
    cs.calls.length = cs0.calls.length ∧
    cs.calls.countP doneQueued = 1 ∧
    (∀ c ∈ cs.calls, doneQueued c = true ∨ doneDup c = true) ∧
    cs.calls.countP doneDup = cs.calls.length - 1 ∧
    rowCount cs.sys.store t = 1 ∧
    queueCount cs.sys.queue t = 1 := by
  have hfalse_pc : ∀ c ∈ cs0.calls, passedCommit c = false := by
    intro c hc
    rcases c with ⟨p, pc⟩
    have h := hpc0 _ hc
    dsimp at h
    subst h
    rfl
  have hfalse_dq : ∀ c ∈ cs0.calls, doneQueued c = false := by
    intro c hc
    rcases c with ⟨p, pc⟩
    have h := hpc0 _ hc
    dsimp at h
    subst h
    rfl
  have inv0 : CInv t cs0 := by
    refine ⟨hids, ?_, ?_, ?_, ?_, ?_⟩
    · rw [hrow0]
      symm
      rw [List.countP_eq_zero]
      intro c hc
      rw [hfalse_pc c hc]
      exact Bool.false_ne_true
    · rw [hrow0]
      exact Nat.zero_le 1
    · rw [hq0]
      symm
      rw [List.countP_eq_zero]
      intro c hc
      rw [hfalse_dq c hc]
      exact Bool.false_ne_true
    · intro c hc r hr
      rw [hpc0 c hc] at hr
      cases hr
    · intro c hc hdup
      rcases c with ⟨p, pc⟩
      have h := hpc0 _ hc
      dsimp at h
      subst h
      simp [doneDup] at hdup
  have inv : CInv t cs := creach_inv inv0 hreach
  have hlen : cs.calls.length = cs0.calls.length := creach_length hreach
  have hclass : ∀ c ∈ cs.calls, doneQueued c = true ∨ doneDup c = true := by
    intro c hc
    rcases c with ⟨p, pc⟩
    have hd := hterm _ hc
    cases pc with
    | atLookup => simp [CallPC.isDone] at hd
    | atCommit => simp [CallPC.isDone] at hd
    | atEnqueue => simp [CallPC.isDone] at hd
    | done r =>
      rcases inv.done_resp _ hc r rfl with h | h | h
      · subst h; left; rfl
      · subst h; right; rfl
      · subst h; right; rfl
  have hpcq : ∀ c ∈ cs.calls, passedCommit c = doneQueued c := by
    intro c hc
    rcases c with ⟨p, pc⟩
    have hd := hterm _ hc
    cases pc with
    | atLookup => simp [CallPC.isDone] at hd
    | atCommit => simp [CallPC.isDone] at hd
    | atEnqueue => simp [CallPC.isDone] at hd
    | done r => rfl
  have hrow_q : rowCount cs.sys.store t = cs.calls.countP doneQueued := by
    rw [inv.row_eq]
    exact List.countP_congr (fun c hc => by rw [hpcq c hc])
  have hpos : 0 < cs.calls.countP doneQueued := by
    rcases Nat.eq_zero_or_pos (cs.calls.countP doneQueued) with hz | hp
    · exfalso
      have hrow_z : rowCount cs.sys.store t = 0 := by rw [hrow_q, hz]
      have hlen1 : 1 ≤ cs.calls.length := hlen ▸ hN
      have hne : cs.calls ≠ [] := by
        intro hnil
        rw [hnil] at hlen1
        simp at hlen1
      rcases List.exists_mem_of_ne_nil cs.calls hne with ⟨c0, hc0⟩
      rcases hclass c0 hc0 with hq | hdup
      · have hgt : 0 < cs.calls.countP doneQueued :=
          List.countP_pos_iff.mpr ⟨c0, hc0, hq⟩
        omega
      · have h1 := inv.dup_mem c0 hc0 hdup
        rw [hrow_z] at h1
        omega
    · exact hp
  have hle1 : cs.calls.countP doneQueued ≤ 1 := hrow_q ▸ inv.row_le
  have hq1 : cs.calls.countP doneQueued = 1 := le_antisymm hle1 hpos
  have hdup_not : ∀ c ∈ cs.calls, doneDup c = true ↔ ¬ doneQueued c = true := by
    intro c hc
    rcases hclass c hc with h | h
    · exact ⟨fun hd => absurd ⟨h, hd⟩ (queued_dup_exclusive c), fun hn => absurd h hn⟩
    · exact ⟨fun _ hq => queued_dup_exclusive c ⟨hq, h⟩, fun _ => h⟩
  have hsum : cs.calls.length =
      cs.calls.countP doneQueued + cs.calls.countP (fun c => ¬ doneQueued c) :=
    List.length_eq_countP_add_countP _ _
  have hdupcnt : cs.calls.countP doneDup =
      cs.calls.countP (fun c => ¬ doneQueued c) :=
    List.countP_congr (fun c hc => by
      simp only [decide_eq_true_eq]
      exact hdup_not c hc)
  refine ⟨hlen, hq1, hclass, ?_, ?_, ?_⟩
  · rw [hq1] at hsum
    omega
  · rw [hrow_q, hq1]
  · rw [inv.q_eq, hq1]

/-- Payload of the two racing calls in the witness run. -/
def CP1 : CPayload := ⟨"t1", "A", "B", 100, "USD"⟩

/-- The row the winning call inserts in the witness run. -/
def CRow : Transaction := mkTxn "t1" "A" "B" 100 "USD" 0

/-- Witness run, initial state: two calls racing on `t1`, empty store. -/
def CS0 : CState := ⟨⟨[], [], 0⟩, [⟨CP1, .atLookup⟩, ⟨CP1, .atLookup⟩]⟩

/-- After call 0's lookup (found nothing). -/
def CS1 : CState := ⟨⟨[], [], 0⟩, [⟨CP1, .atCommit⟩, ⟨CP1, .atLookup⟩]⟩

/-- After call 0's commit (atomic insert succeeded). -/
def CS2 : CState := ⟨⟨[CRow], [], 0⟩, [⟨CP1, .atEnqueue⟩, ⟨CP1, .atLookup⟩]⟩

/-- After call 0's enqueue and response. -/
def CS3 : CState :=
  ⟨⟨[CRow], ["t1"], 0⟩,
    [⟨CP1, .done ⟨202, "Queued for processing"⟩⟩, ⟨CP1, .atLookup⟩]⟩

/-- After call 1's lookup (found the row): terminal. -/
def CS4 : CState :=
  ⟨⟨[CRow], ["t1"], 0⟩,
    [⟨CP1, .done ⟨202, "Queued for processing"⟩⟩,
      ⟨CP1, .done ⟨202, "Already processing"⟩⟩]⟩

/-- Witness for C1: the concrete two-call race settles with one `Queued`,
one duplicate, one row and one enqueue. -/
theorem concurrent_dedup_witness :
    CS4.calls.length = CS0.calls.length ∧
    CS4.calls.countP doneQueued = 1 ∧
    (∀ c ∈ CS4.calls, doneQueued c = true ∨ doneDup c = true) ∧
    CS4.calls.countP doneDup = CS4.calls.length - 1 ∧
    rowCount CS4.sys.store "t1" = 1 ∧
    queueCount CS4.sys.queue "t1" = 1 := by
  refine concurrent_dedup "t1" CS0 CS4 (by decide) (by decide) (by decide)
    (by decide) (by decide) ?_ (by decide)
  have s1 : CStep CS0 CS1 :=
    CStep.interleave [] [⟨CP1, .atLookup⟩] ⟨CP1, .atLookup⟩
      ⟨[], [], 0⟩ .atCommit ⟨[], [], 0⟩ rfl (by decide)
  have s2 : CStep CS1 CS2 :=
    CStep.interleave [] [⟨CP1, .atLookup⟩] ⟨CP1, .atCommit⟩
      ⟨[], [], 0⟩ .atEnqueue ⟨[CRow], [], 0⟩ rfl (by decide)
  have s3 : CStep CS2 CS3 :=
    CStep.interleave [] [⟨CP1, .atLookup⟩] ⟨CP1, .atEnqueue⟩
      ⟨[CRow], [], 0⟩ (.done ⟨202, "Queued for processing"⟩)
      ⟨[CRow], ["t1"], 0⟩ rfl (by decide)
  have s4 : CStep CS3 CS4 :=
    CStep.interleave [⟨CP1, .done ⟨202, "Queued for processing"⟩⟩] []
      ⟨CP1, .atLookup⟩ ⟨[CRow], ["t1"], 0⟩
      (.done ⟨202, "Already processing"⟩) ⟨[CRow], ["t1"], 0⟩ rfl (by decide)
  exact Relation.ReflTransGen.head s1 (Relation.ReflTransGen.head s2
    (Relation.ReflTransGen.head s3 (Relation.ReflTransGen.single s4)))

end TxnWebhook
